import Mathlib

/-!
# Dino Wallet Service — shallow embedding and verification

This file embeds the core of the wallet service (a double-entry ledger
transfer engine backed by five logical tables) as executable Lean
definitions, translated from the JavaScript source:

* `src/services/WalletService.js`   — `topUp`, `bonus`, `spend`, `_executeTransfer`
* `src/repositories/WalletRepository.js` — `getById`, `getSystemWalletByRef`,
  `listAll`, `lockWallets`
* `src/repositories/LedgerRepository.js` — `getBalanceForAsset`, `insertEntry`
* `src/repositories/IdempotencyRepository.js` — `hashRequest`, `get`, `store`
* `src/repositories/TransactionRepository.js` — `insert`
* `src/handlers/walletRoutes.js` — pagination clamping of `limit`/`offset`
* `src/db/migrate.js` — schema facts (primary keys, foreign keys, the
  `UNIQUE` constraint on `idem_key`, `NUMERIC(28,8)` amounts)

Modelling conventions:

* Database state is a record of lists (`St`).  SQL queries become list
  functions; `rows[0]` becomes `List.find?`.
* JavaScript numbers flowing through amount validation are modelled by
  `JSNum` (a rational, `Infinity`, `-Infinity`, or `NaN`), so that the
  `isNaN(x) || x <= 0` guard and the `balance < amount` comparison keep
  their IEEE semantics for the special values.  Ledger amounts persisted
  in `NUMERIC(28,8)` columns are exact decimals, modelled as `ℚ`;
  inserting a non-finite amount into such a column fails, which the model
  reflects by failing the transactional scope (`ApiErr.internal`).
* `uuidv4` freshness for transaction ids is modelled by a counter
  (`St.nextId`); transaction ids are `Nat`.
* SHA-256 request hashing is modelled by the canonical encoded string
  itself (an injective stand-in for the digest, matching the spec's
  idealisation that distinct canonical requests have distinct hashes).
* `withTransaction` commits the scope's writes atomically or rolls the
  whole scope back; the model returns either the committed state or the
  unchanged input state.
-/

namespace DinoWallet

/-- A JavaScript number as it flows through amount validation:
a finite double (modelled exactly as a rational), `Infinity`,
`-Infinity`, or `NaN`. -/
inductive JSNum where
  | finite (q : ℚ)
  | inf
  | negInf
  | nan
deriving DecidableEq, Repr

/-- JS `isNaN(x)`. -/
def JSNum.isNaN : JSNum → Bool
  | .nan => true
  | _ => false

/-- JS `x <= 0` (false for `NaN` and `Infinity`, true for `-Infinity`). -/
def JSNum.leZero : JSNum → Bool
  | .finite q => decide (q ≤ 0)
  | .inf => false
  | .negInf => true
  | .nan => false

/-- JS `b < x` for a finite left operand `b` (the derived balance). -/
def JSNum.finLt (b : ℚ) : JSNum → Bool
  | .finite q => decide (b < q)
  | .inf => true
  | .negInf => false
  | .nan => false

/-- The exact decimal value a `NUMERIC(28,8)` column can receive from the
number, if any. -/
def JSNum.toRat? : JSNum → Option ℚ
  | .finite q => some q
  | _ => none

/-- The amount guard in `WalletService._executeTransfer`
(and `validateTransferBody` in `walletRoutes.js`):
`isNaN(numAmount) || numAmount <= 0`. -/
def amountGuardFails (x : JSNum) : Bool :=
  x.isNaN || x.leZero

/-- `direction` column of `ledger_entries`: `'debit'` or `'credit'`. -/
inductive Direction where
  | debit
  | credit
deriving DecidableEq, Repr

/-- A row of the `wallets` table (columns the core reads). -/
structure Wallet where
  id : String
  ownerRef : String
  ownerType : String
  label : String
  isActive : Bool
deriving DecidableEq, Repr

/-- A row of the `asset_types` table (columns the core reads). -/
structure AssetType where
  id : String
  name : String
  symbol : String
  isActive : Bool
deriving DecidableEq, Repr

/-- A row of the `transactions` table (columns the core writes/reads). -/
structure Txn where
  id : Nat
  transactionType : String
  reference : String
  initiatedBy : String
deriving DecidableEq, Repr

/-- A row of the `ledger_entries` table.  `amount` is the exact
`NUMERIC(28,8)` decimal. -/
structure LedgerEntry where
  transactionId : Nat
  walletId : String
  assetTypeId : String
  direction : Direction
  amount : ℚ
deriving DecidableEq, Repr

/-- The `TransferResult` object built inside the transactional scope and
stored as the idempotency record's `response_body`. -/
structure TransferResult where
  transaction_id : Nat
  transaction_type : String
  reference : String
  asset_type_id : String
  asset_symbol : String
  amount : JSNum
  from_wallet_id : String
  to_wallet_id : String
deriving DecidableEq, Repr

/-- A row of the `idempotency_keys` table. -/
structure IdemRecord where
  idemKey : String
  endpoint : String
  requestHash : String
  responseStatus : Nat
  responseBody : TransferResult
  transactionId : Nat
  expiresAt : Nat
deriving DecidableEq, Repr

/-- The database state: the five logical tables, the clock (for
`expires_at > NOW()`), and the id-generation counter modelling `uuidv4`
freshness for transaction ids. -/
structure St where
  wallets : List Wallet
  assets : List AssetType
  txns : List Txn
  entries : List LedgerEntry
  idems : List IdemRecord
  now : Nat
  nextId : Nat
deriving DecidableEq, Repr

/-- The error taxonomy of `src/errors/ApiError.js` as the service raises
it: 400, 404, 409, 422, and unclassified storage failures. -/
inductive ApiErr where
  | badRequest
  | notFound
  | conflict
  | unprocessable
  | internal
deriving DecidableEq, Repr

instance {ε α : Type} [DecidableEq ε] [DecidableEq α] : DecidableEq (Except ε α) := fun x y =>
  match x, y with
  | .error a, .error b =>
    if h : a = b then isTrue (by rw [h])
    else isFalse (fun hc => by cases hc; exact h rfl)
  | .error _, .ok _ => isFalse (fun hc => by cases hc)
  | .ok _, .error _ => isFalse (fun hc => by cases hc)
  | .ok a, .ok b =>
    if h : a = b then isTrue (by rw [h])
    else isFalse (fun hc => by cases hc; exact h rfl)

/-- `WalletRepository.getById`: `SELECT ... FROM wallets WHERE id = $1`,
first row or null. -/
def getWalletById (s : St) (id : String) : Option Wallet :=
  s.wallets.find? (fun w => w.id == id)

/-- `WalletRepository.getSystemWalletByRef`: `SELECT ... FROM wallets
WHERE owner_ref = $1 AND owner_type = 'system' AND is_active = TRUE`. -/
def getSystemWalletByRef (s : St) (ref : String) : Option Wallet :=
  s.wallets.find? (fun w => w.ownerRef == ref && w.ownerType == "system" && w.isActive)

/-- `AssetRepository.getById`. -/
def getAssetById (s : St) (id : String) : Option AssetType :=
  s.assets.find? (fun a => a.id == id)

/-- `IdempotencyRepository.get`: `SELECT ... FROM idempotency_keys WHERE
idem_key = $1 AND expires_at > NOW()`. -/
def idemGet (s : St) (key : String) : Option IdemRecord :=
  s.idems.find? (fun r => r.idemKey == key && decide (s.now < r.expiresAt))

/-- `expires_at` default: `NOW() + INTERVAL '24 hours'`, in milliseconds. -/
def idemTtl : Nat := 86400000

/-- `IdempotencyRepository.store`: `INSERT ... ON CONFLICT (idem_key) DO
NOTHING` inside the transactional scope.  The `UNIQUE` constraint is on
`idem_key` alone, so any pre-existing row with the key (expired or not)
makes the insert a silent no-op. -/
def idemStore (s : St) (r : IdemRecord) : St :=
  if s.idems.any (fun x => x.idemKey == r.idemKey) then s
  else { s with idems := r :: s.idems }

/-- JSON encoding of a JS number inside `JSON.stringify`
(non-finite numbers serialise as `null`). -/
def numEnc : JSNum → String
  | .finite q => toString q
  | _ => "null"

/-- `IdempotencyRepository.hashRequest` over `{assetTypeId, amount,
reference}`: `JSON.stringify(body, Object.keys(body).sort())` followed by
SHA-256.  The model keeps the canonical encoded string itself as the
digest (injective stand-in). -/
def hashRequest (assetTypeId : String) (amount : JSNum) (reference : String) : String :=
  "amount:" ++ numEnc amount ++ "|assetTypeId:" ++ assetTypeId ++ "|reference:" ++ reference

/-- Lexicographic strict comparison of character sequences, as the JS
default `Array.prototype.sort` comparator orders strings (code-unit by
code-unit, shorter prefix first). -/
def charsLt : List Char → List Char → Bool
  | _, [] => false
  | [], _ :: _ => true
  | a :: as, b :: bs =>
    if a < b then true
    else if b < a then false
    else charsLt as bs

/-- Lexicographic strict order on strings. -/
def strLt (s1 s2 : String) : Bool := charsLt s1.data s2.data

/-- Lexicographic (non-strict) order on strings. -/
def strLe (s1 s2 : String) : Bool := !strLt s2 s1

/-- `strLe` as a relation, for sorting. -/
def strLeB : String → String → Prop := fun a b => strLe a b = true

/-- `strLt` as a relation: strictly ascending order. -/
def strLtB : String → String → Prop := fun a b => strLt a b = true

instance : DecidableRel strLeB := fun a b => Bool.decEq (strLe a b) true

instance : DecidableRel strLtB := fun a b => Bool.decEq (strLt a b) true

/-- First-occurrence deduplication, as `[...new Set(walletIds)]`. -/
def dedupFirstAux (seen : List String) : List String → List String
  | [] => []
  | x :: xs =>
    if x ∈ seen then dedupFirstAux seen xs
    else x :: dedupFirstAux (x :: seen) xs

/-- `[...new Set(walletIds)]`. -/
def dedupFirst (l : List String) : List String :=
  dedupFirstAux [] l

/-- `[...new Set(walletIds)].sort()`: the canonical lock-acquisition
order — distinct ids, ascending lexicographic order. -/
def sortIds (ids : List String) : List String :=
  (dedupFirst ids).insertionSort strLeB

/-- The `for (const id of sortedIds)` loop of
`WalletRepository.lockWallets`: `SELECT ... FOR UPDATE` each id in order,
throwing `NotFoundError` at a missing id. -/
def lockLoop (s : St) : List String → Except ApiErr (List Wallet)
  | [] => .ok []
  | id :: rest =>
    match getWalletById s id with
    | none => .error .notFound
    | some w =>
      match lockLoop s rest with
      | .error e => .error e
      | .ok ws => .ok (w :: ws)

/-- `WalletRepository.lockWallets`: exclusive row locks on the distinct
wallet ids in ascending lexicographic order; `NotFound` for a missing id. -/
def lockWallets (s : St) (ids : List String) : Except ApiErr (List Wallet) :=
  lockLoop s (sortIds ids)

/-- The per-entry summand of the balance rule:
`CASE WHEN direction = 'credit' THEN amount ELSE -amount END`. -/
def signedAmount (e : LedgerEntry) : ℚ :=
  match e.direction with
  | .credit => e.amount
  | .debit => -e.amount

/-- `SUM(CASE WHEN direction = 'credit' THEN amount ELSE -amount END)`
over the entries of one wallet and one asset (`COALESCE(..., 0)`). -/
def balEntries (es : List LedgerEntry) (wId aId : String) : ℚ :=
  ((es.filter (fun e => e.walletId == wId && e.assetTypeId == aId)).map signedAmount).sum

/-- `LedgerRepository.getBalanceForAsset`. -/
def getBalanceForAsset (s : St) (wId aId : String) : ℚ :=
  balEntries s.entries wId aId

/-- Sum of the derived balances of every wallet in the state, for one
asset — the conservation quantity `Σ balance(W,A) over all wallets W`. -/
def sumBal (ws : List Wallet) (es : List LedgerEntry) (aId : String) : ℚ :=
  (ws.map (fun w => balEntries es w.id aId)).sum

/-- The arguments `WalletService._executeTransfer` receives from a flow. -/
structure TransferArgs where
  fromWalletId : String
  toWalletId : String
  txType : String
  assetTypeId : String
  amount : JSNum
  reference : String
  initiatedBy : String
  idemKey : String
  endpoint : String
deriving DecidableEq, Repr

/-- The `transferResult` object built inside the transactional scope. -/
def mkResult (s : St) (a : TransferArgs) (symbol : String) : TransferResult :=
  { transaction_id := s.nextId
    transaction_type := a.txType
    reference := a.reference
    asset_type_id := a.assetTypeId
    asset_symbol := symbol
    amount := a.amount
    from_wallet_id := a.fromWalletId
    to_wallet_id := a.toWalletId }

/-- The state produced by the commit of the transactional scope: the
transaction header, the debit entry then the credit entry (equal amount,
equal asset), and the idempotency record, all made durable atomically. -/
def commitState (s : St) (a : TransferArgs) (q : ℚ) (symbol hash : String) : St :=
  let txId := s.nextId
  let s1 : St :=
    { s with
      txns := ⟨txId, a.txType, a.reference, a.initiatedBy⟩ :: s.txns
      entries := s.entries ++
        [⟨txId, a.fromWalletId, a.assetTypeId, .debit, q⟩,
         ⟨txId, a.toWalletId, a.assetTypeId, .credit, q⟩]
      nextId := txId + 1 }
  idemStore s1
    ⟨a.idemKey, a.endpoint, hash, 201, mkResult s a symbol, txId, s.now + idemTtl⟩

/-- The body of `withTransaction(async (client) => ...)` in
`WalletService._executeTransfer`: canonical lock, active checks, funds
check for `spend` only, transaction header, debit entry, credit entry,
idempotency record.  An error rolls the whole scope back. -/
def transferScope (s : St) (a : TransferArgs) (numAmount : JSNum)
    (asset : AssetType) (hash : String) : Except ApiErr (TransferResult × St) :=
  match lockWallets s [a.fromWalletId, a.toWalletId] with
  | .error e => .error e
  | .ok _ =>
    match getWalletById s a.fromWalletId, getWalletById s a.toWalletId with
    | some wFrom, some wTo =>
      if !wFrom.isActive then .error .badRequest
      else if !wTo.isActive then .error .badRequest
      else if a.txType == "spend" &&
          JSNum.finLt (getBalanceForAsset s a.fromWalletId a.assetTypeId) numAmount then
        .error .unprocessable
      else
        match numAmount.toRat? with
        | none => .error .internal
        | some q => .ok (mkResult s a asset.symbol, commitState s a q asset.symbol hash)
    | _, _ => .error .notFound

/-- `WalletService._executeTransfer`: amount guard, request hash,
optimistic idempotency read, asset validation, then the transactional
scope.  Returns `(data, fromCache)` or an error, with the resulting
state (unchanged except on commit). -/
def executeTransfer (s : St) (a : TransferArgs) :
    Except ApiErr (TransferResult × Bool) × St :=
  let numAmount := a.amount
  if amountGuardFails numAmount then (.error .badRequest, s)
  else
    let hash := hashRequest a.assetTypeId a.amount a.reference
    match idemGet s a.idemKey with
    | some existing =>
      if existing.requestHash != hash then (.error .conflict, s)
      else (.ok (existing.responseBody, true), s)
    | none =>
      match getAssetById s a.assetTypeId with
      | none => (.error .notFound, s)
      | some asset =>
        if !asset.isActive then (.error .badRequest, s)
        else
          match transferScope s a numAmount asset hash with
          | .error e => (.error e, s)
          | .ok (res, s') => (.ok (res, false), s')

/-- The validated request body a flow receives. -/
structure TransferBody where
  assetTypeId : String
  amount : JSNum
  reference : String
  initiatedBy : String
deriving DecidableEq, Repr

/-- The argument record `WalletService.topUp` passes to
`_executeTransfer`: treasury → caller's wallet, type `topup`. -/
def mkTopupArgs (treasuryId walletId : String) (b : TransferBody)
    (idemKey endpoint : String) : TransferArgs :=
  ⟨treasuryId, walletId, "topup", b.assetTypeId, b.amount, b.reference,
    b.initiatedBy, idemKey, endpoint⟩

/-- The argument record `WalletService.bonus` passes to
`_executeTransfer`: bonus pool → caller's wallet, type `bonus`. -/
def mkBonusArgs (bonusPoolId walletId : String) (b : TransferBody)
    (idemKey endpoint : String) : TransferArgs :=
  ⟨bonusPoolId, walletId, "bonus", b.assetTypeId, b.amount, b.reference,
    b.initiatedBy, idemKey, endpoint⟩

/-- The argument record `WalletService.spend` passes to
`_executeTransfer`: caller's wallet → revenue, type `spend`. -/
def mkSpendArgs (walletId revenueId : String) (b : TransferBody)
    (idemKey endpoint : String) : TransferArgs :=
  ⟨walletId, revenueId, "spend", b.assetTypeId, b.amount, b.reference,
    b.initiatedBy, idemKey, endpoint⟩

/-- `WalletService.topUp`: resolve `system:treasury` (NotFound when
missing or inactive), then transfer treasury → caller's wallet. -/
def topUp (s : St) (walletId : String) (b : TransferBody)
    (idemKey endpoint : String) : Except ApiErr (TransferResult × Bool) × St :=
  match getSystemWalletByRef s "system:treasury" with
  | none => (.error .notFound, s)
  | some tw => executeTransfer s (mkTopupArgs tw.id walletId b idemKey endpoint)

/-- `WalletService.bonus`: resolve `system:bonus_pool`, then transfer
bonus pool → caller's wallet. -/
def bonus (s : St) (walletId : String) (b : TransferBody)
    (idemKey endpoint : String) : Except ApiErr (TransferResult × Bool) × St :=
  match getSystemWalletByRef s "system:bonus_pool" with
  | none => (.error .notFound, s)
  | some bp => executeTransfer s (mkBonusArgs bp.id walletId b idemKey endpoint)

/-- `WalletService.spend`: resolve `system:revenue`, then transfer
caller's wallet → revenue. -/
def spend (s : St) (walletId : String) (b : TransferBody)
    (idemKey endpoint : String) : Except ApiErr (TransferResult × Bool) × St :=
  match getSystemWalletByRef s "system:revenue" with
  | none => (.error .notFound, s)
  | some rw => executeTransfer s (mkSpendArgs walletId rw.id b idemKey endpoint)

/-- The comparator of `WalletRepository.listAll`:
`ORDER BY owner_type DESC, label ASC` over `TEXT` columns. -/
def walletLeB (w1 w2 : Wallet) : Bool :=
  strLt w2.ownerType w1.ownerType ||
    (w2.ownerType == w1.ownerType && strLe w1.label w2.label)

/-- `walletLeB` as a relation, for sorting. -/
def listAllLE (w1 w2 : Wallet) : Prop := walletLeB w1 w2 = true

instance : DecidableRel listAllLE := fun w1 w2 => Bool.decEq (walletLeB w1 w2) true

/-- `WalletRepository.listAll`: all wallets, `ORDER BY owner_type DESC,
label ASC`. -/
def listAll (s : St) : List Wallet :=
  s.wallets.insertionSort listAllLE

/-! ## Pagination of `GET /wallets/:walletId/transactions`
(`walletRoutes.js`):
`limit  = Math.max(1, Math.min(100, parseInt(req.query.limit || '20', 10)))`
`offset = Math.max(0, parseInt(req.query.offset || '0', 10))`
`parseInt` of a non-numeric string is `NaN`, and `Math.min`/`Math.max`
propagate `NaN`; `Option Int` models an integral double or `NaN`. -/

/-- Longest leading digit run. -/
def digitsPrefix : List Char → List Char
  | [] => []
  | c :: cs => if c.isDigit then c :: digitsPrefix cs else []

/-- Digit run to a natural number. -/
def digitsToNat (ds : List Char) : Nat :=
  ds.foldl (fun n c => 10 * n + (c.toNat - '0'.toNat)) 0

/-- JS `parseInt(str, 10)`: skip leading whitespace, optional sign,
longest digit prefix; `NaN` (`none`) when no digit is found. -/
def jsParseInt (str : String) : Option Int :=
  let cs := str.toList.dropWhile (fun c => c.isWhitespace)
  match cs with
  | '-' :: rest =>
    let ds := digitsPrefix rest
    if ds.isEmpty then none else some (-(digitsToNat ds : Int))
  | '+' :: rest =>
    let ds := digitsPrefix rest
    if ds.isEmpty then none else some ((digitsToNat ds : Int))
  | _ =>
    let ds := digitsPrefix cs
    if ds.isEmpty then none else some ((digitsToNat ds : Int))

/-- JS `q || d` for an optional query-string value (absent and `''` are
falsy). -/
def jsOrDefault (q : Option String) (d : String) : String :=
  match q with
  | none => d
  | some v => if v == "" then d else v

/-- JS `Math.min(a, x)` with `NaN` propagation. -/
def jsMin (a : Int) (x : Option Int) : Option Int := x.map (min a)

/-- JS `Math.max(a, x)` with `NaN` propagation. -/
def jsMax (a : Int) (x : Option Int) : Option Int := x.map (max a)

/-- The effective `limit` of the transactions route. -/
def effLimit (q : Option String) : Option Int :=
  jsMax 1 (jsMin 100 (jsParseInt (jsOrDefault q "20")))

/-- The effective `offset` of the transactions route. -/
def effOffset (q : Option String) : Option Int :=
  jsMax 0 (jsParseInt (jsOrDefault q "0"))

/-! ## System-level predicates -/

/-- Schema facts of `migrate.js` (plus id-generation freshness):
wallet ids are a primary key; ledger entries reference existing wallets;
transaction ids and the transaction ids of ledger entries are below the
generation counter. -/
def SchemaWf (s : St) : Prop :=
  (s.wallets.map (fun w => w.id)).Nodup ∧
  (∀ e ∈ s.entries, ∃ w ∈ s.wallets, w.id = e.walletId) ∧
  (∀ t ∈ s.txns, t.id < s.nextId) ∧
  (∀ e ∈ s.entries, e.transactionId < s.nextId)

/-- Conservation: for every asset, the derived balances of all wallets
sum to zero. -/
def Conserved (s : St) : Prop :=
  ∀ aId : String, sumBal s.wallets s.entries aId = 0

/-- The ledger entries associated with one transaction. -/
def txEntries (s : St) (txId : Nat) : List LedgerEntry :=
  s.entries.filter (fun e => e.transactionId == txId)

/-- The pairing shape of a committed transaction: exactly two entries,
a debit then a credit, equal amount, equal asset. -/
def PairedTx (s : St) (txId : Nat) : Prop :=
  ∃ e1 e2, txEntries s txId = [e1, e2] ∧
    e1.direction = .debit ∧ e2.direction = .credit ∧
    e1.amount = e2.amount ∧ e1.assetTypeId = e2.assetTypeId

/-- One public write operation applied to the state. -/
inductive Step : St → St → Prop
  | topup (s : St) (walletId : String) (b : TransferBody) (k ep : String) :
      Step s (topUp s walletId b k ep).2
  | bonus (s : St) (walletId : String) (b : TransferBody) (k ep : String) :
      Step s (bonus s walletId b k ep).2
  | spend (s : St) (walletId : String) (b : TransferBody) (k ep : String) :
      Step s (spend s walletId b k ep).2

/-- Reachability by the public write operations. -/
def Reach : St → St → Prop := Relation.ReflTransGen Step

/-! ## Basic lemmas -/

theorem getWalletById_some {s : St} {id : String} {w : Wallet}
    (h : getWalletById s id = some w) : w ∈ s.wallets ∧ w.id = id := by
  refine ⟨List.mem_of_find?_eq_some h, ?_⟩
  have := List.find?_some h
  simpa using this

theorem amountGuardFails_finite_pos {q : ℚ} (hq : 0 < q) :
    amountGuardFails (JSNum.finite q) = false := by
  simp [amountGuardFails, JSNum.isNaN, JSNum.leZero, not_le.mpr hq]

theorem idemStore_wallets (s : St) (r : IdemRecord) :
    (idemStore s r).wallets = s.wallets := by
  unfold idemStore; split <;> rfl

theorem idemStore_entries (s : St) (r : IdemRecord) :
    (idemStore s r).entries = s.entries := by
  unfold idemStore; split <;> rfl

theorem idemStore_txns (s : St) (r : IdemRecord) :
    (idemStore s r).txns = s.txns := by
  unfold idemStore; split <;> rfl

theorem idemStore_nextId (s : St) (r : IdemRecord) :
    (idemStore s r).nextId = s.nextId := by
  unfold idemStore; split <;> rfl

theorem idemStore_of_key_exists {s : St} {r : IdemRecord}
    (h : ∃ x ∈ s.idems, x.idemKey = r.idemKey) : idemStore s r = s := by
  unfold idemStore
  rw [if_pos]
  rw [List.any_eq_true]
  obtain ⟨x, hx, hk⟩ := h
  exact ⟨x, hx, by simp [hk]⟩

/-- The debit entry of a commit. -/
def debitEntry (s : St) (a : TransferArgs) (q : ℚ) : LedgerEntry :=
  ⟨s.nextId, a.fromWalletId, a.assetTypeId, .debit, q⟩

/-- The credit entry of a commit. -/
def creditEntry (s : St) (a : TransferArgs) (q : ℚ) : LedgerEntry :=
  ⟨s.nextId, a.toWalletId, a.assetTypeId, .credit, q⟩

theorem commitState_wallets (s : St) (a : TransferArgs) (q : ℚ) (sym h : String) :
    (commitState s a q sym h).wallets = s.wallets := by
  unfold commitState; rw [idemStore_wallets]

theorem commitState_entries (s : St) (a : TransferArgs) (q : ℚ) (sym h : String) :
    (commitState s a q sym h).entries =
      s.entries ++ [debitEntry s a q, creditEntry s a q] := by
  unfold commitState; rw [idemStore_entries]; rfl

theorem commitState_txns (s : St) (a : TransferArgs) (q : ℚ) (sym h : String) :
    (commitState s a q sym h).txns =
      ⟨s.nextId, a.txType, a.reference, a.initiatedBy⟩ :: s.txns := by
  unfold commitState; rw [idemStore_txns]

theorem commitState_nextId (s : St) (a : TransferArgs) (q : ℚ) (sym h : String) :
    (commitState s a q sym h).nextId = s.nextId + 1 := by
  unfold commitState; rw [idemStore_nextId]

/-! ## Shared concrete fixtures (seed-like states used by witnesses and
counterexamples) -/

/-- Treasury system wallet. -/
def exTreasury : Wallet := ⟨"t1", "system:treasury", "system", "Treasury", true⟩

/-- Revenue system wallet. -/
def exRevenue : Wallet := ⟨"r1", "system:revenue", "system", "Revenue", true⟩

/-- A user wallet. -/
def exAlice : Wallet := ⟨"u1", "user:alice", "user", "Alice", true⟩

/-- A gold asset. -/
def exGold : AssetType := ⟨"a1", "Gold Coins", "GLD", true⟩

/-- A fresh seed state: treasury and a user wallet, one asset, empty
ledger. -/
def exSt : St := ⟨[exTreasury, exAlice], [exGold], [], [], [], 10, 0⟩

/-- A transfer body for 5 GLD. -/
def exBody : TransferBody := ⟨"a1", .finite 5, "PAY-1", "system"⟩

/-! ## The lexicographic string order -/

theorem charsLt_irrefl (l : List Char) : charsLt l l = false := by
  induction l with
  | nil => rfl
  | cons a as ih => simp [charsLt, ih]

theorem charsLt_asymm {x y : List Char} (h : charsLt x y = true) :
    charsLt y x = false := by
  induction x generalizing y with
  | nil =>
    cases y with
    | nil => rw [show charsLt ([] : List Char) [] = false from rfl] at h; cases h
    | cons b bs => rfl
  | cons a as ih =>
    cases y with
    | nil => rw [show charsLt (a :: as) [] = false from rfl] at h; cases h
    | cons b bs =>
      by_cases h1 : a < b
      · have h2 : ¬ b < a := lt_asymm h1
        simp [charsLt, h1, h2]
      · by_cases h2 : b < a
        · simp [charsLt, h1, h2] at h
        · simp only [charsLt, if_neg h1, if_neg h2] at h
          simp only [charsLt, if_neg h2, if_neg h1]
          exact ih h

theorem charsLt_trans {x y z : List Char} (hxy : charsLt x y = true)
    (hyz : charsLt y z = true) : charsLt x z = true := by
  induction x generalizing y z with
  | nil =>
    cases z with
    | nil => rw [show charsLt y [] = false from by cases y <;> rfl] at hyz; cases hyz
    | cons c cs => rfl
  | cons a as ih =>
    cases y with
    | nil => rw [show charsLt (a :: as) [] = false from rfl] at hxy; cases hxy
    | cons b bs =>
      cases z with
      | nil => rw [show charsLt (b :: bs) [] = false from rfl] at hyz; cases hyz
      | cons c cs =>
        by_cases hab : a < b
        · by_cases hbc : b < c
          · simp [charsLt, lt_trans hab hbc]
          · by_cases hcb : c < b
            · simp [charsLt, hbc, hcb] at hyz
            · have hbceq : b = c := le_antisymm (not_lt.mp hcb) (not_lt.mp hbc)
              have hac : a < c := by rw [← hbceq]; exact hab
              simp [charsLt, hac]
        · by_cases hba : b < a
          · simp [charsLt, hab, hba] at hxy
          · have habeq : a = b := le_antisymm (not_lt.mp hba) (not_lt.mp hab)
            simp only [charsLt, if_neg hab, if_neg hba] at hxy
            by_cases hbc : b < c
            · have hac : a < c := by rw [habeq]; exact hbc
              simp [charsLt, hac]
            · by_cases hcb : c < b
              · simp [charsLt, hbc, hcb] at hyz
              · have hbceq : b = c := le_antisymm (not_lt.mp hcb) (not_lt.mp hbc)
                simp only [charsLt, if_neg hbc, if_neg hcb] at hyz
                have haceq : a = c := habeq.trans hbceq
                have h1 : ¬ a < c := by rw [haceq]; exact lt_irrefl c
                have h2 : ¬ c < a := by rw [haceq]; exact lt_irrefl c
                simp only [charsLt, if_neg h1, if_neg h2]
                exact ih hxy hyz

theorem charsLt_conn {x y : List Char} (h1 : charsLt x y = false)
    (h2 : charsLt y x = false) : x = y := by
  induction x generalizing y with
  | nil =>
    cases y with
    | nil => rfl
    | cons b bs =>
      rw [show charsLt ([] : List Char) (b :: bs) = true from rfl] at h1; cases h1
  | cons a as ih =>
    cases y with
    | nil =>
      rw [show charsLt ([] : List Char) (a :: as) = true from rfl] at h2; cases h2
    | cons b bs =>
      by_cases hab : a < b
      · simp [charsLt, hab] at h1
      · by_cases hba : b < a
        · simp [charsLt, hba] at h2
        · have habeq : a = b := le_antisymm (not_lt.mp hba) (not_lt.mp hab)
          simp only [charsLt, if_neg hab, if_neg hba] at h1
          simp only [charsLt, if_neg hba, if_neg hab] at h2
          rw [habeq, ih h1 h2]

theorem strLt_irrefl (s : String) : strLt s s = false := charsLt_irrefl s.data

theorem strLt_asymm {a b : String} (h : strLt a b = true) : strLt b a = false :=
  charsLt_asymm h

theorem strLt_trans {a b c : String} (h1 : strLt a b = true)
    (h2 : strLt b c = true) : strLt a c = true :=
  charsLt_trans h1 h2

theorem strEq_of_not_lt {a b : String} (h1 : strLt a b = false)
    (h2 : strLt b a = false) : a = b := by
  cases a with
  | mk d1 =>
    cases b with
    | mk d2 => exact congrArg String.mk (charsLt_conn h1 h2)

theorem strLe_total (a b : String) : strLe a b = true ∨ strLe b a = true := by
  unfold strLe
  cases h : strLt b a
  · left; rfl
  · right; rw [strLt_asymm h]; rfl

theorem strLe_trans {a b c : String} (hab : strLe a b = true)
    (hbc : strLe b c = true) : strLe a c = true := by
  unfold strLe at hab hbc ⊢
  simp only [Bool.not_eq_true'] at hab hbc ⊢
  cases hca : strLt c a
  · rfl
  · exfalso
    cases hab' : strLt a b
    · have heq : a = b := strEq_of_not_lt hab' hab
      cases hbc' : strLt b c
      · have heq2 : b = c := strEq_of_not_lt hbc' hbc
        rw [heq, heq2, strLt_irrefl] at hca
        cases hca
      · have hba : strLt b a = true := strLt_trans hbc' hca
        rw [hba] at hab; cases hab
    · have hcb : strLt c b = true := strLt_trans hca hab'
      rw [hcb] at hbc; cases hbc

theorem strLtB_of_le_ne {a b : String} (hle : strLeB a b) (hne : a ≠ b) :
    strLtB a b := by
  unfold strLeB strLe at hle
  unfold strLtB
  simp only [Bool.not_eq_true'] at hle
  cases h : strLt a b
  · exact absurd (strEq_of_not_lt h hle) hne
  · rfl

instance : IsTotal String strLeB where
  total a b := strLe_total a b

instance : IsTrans String strLeB where
  trans _ _ _ hab hbc := strLe_trans hab hbc

/-! ## Canonical lock order (`lockWallets`) -/

theorem mem_dedupFirstAux (seen l : List String) (a : String) :
    a ∈ dedupFirstAux seen l ↔ (a ∈ l ∧ a ∉ seen) := by
  induction l generalizing seen with
  | nil => simp [dedupFirstAux]
  | cons x xs ih =>
    by_cases hx : x ∈ seen
    · simp only [dedupFirstAux, if_pos hx, ih, List.mem_cons]
      constructor
      · rintro ⟨hm, hn⟩; exact ⟨Or.inr hm, hn⟩
      · rintro ⟨hm | hm, hn⟩
        · exact absurd (hm ▸ hx) hn
        · exact ⟨hm, hn⟩
    · simp only [dedupFirstAux, if_neg hx, List.mem_cons, ih]
      constructor
      · rintro (rfl | ⟨hm, hn⟩)
        · exact ⟨Or.inl rfl, hx⟩
        · exact ⟨Or.inr hm, fun hs => hn (Or.inr hs)⟩
      · rintro ⟨rfl | hm, hn⟩
        · exact Or.inl rfl
        · by_cases hax : a = x
          · exact Or.inl hax
          · exact Or.inr ⟨hm, by simp [hax, hn]⟩

theorem nodup_dedupFirstAux (seen l : List String) :
    (dedupFirstAux seen l).Nodup := by
  induction l generalizing seen with
  | nil => simp [dedupFirstAux]
  | cons x xs ih =>
    by_cases hx : x ∈ seen
    · simpa only [dedupFirstAux, if_pos hx] using ih seen
    · simp only [dedupFirstAux, if_neg hx, List.nodup_cons]
      refine ⟨fun hm => ?_, ih (x :: seen)⟩
      have := (mem_dedupFirstAux (x :: seen) xs x).mp hm
      exact this.2 (List.mem_cons_self x seen)

theorem mem_sortIds (ids : List String) (a : String) :
    a ∈ sortIds ids ↔ a ∈ ids := by
  unfold sortIds
  rw [(List.perm_insertionSort _ _).mem_iff]
  unfold dedupFirst
  rw [mem_dedupFirstAux]
  simp

theorem nodup_sortIds (ids : List String) : (sortIds ids).Nodup := by
  unfold sortIds
  exact (List.perm_insertionSort _ _).nodup_iff.mpr (nodup_dedupFirstAux [] ids)

theorem sorted_sortIds (ids : List String) :
    List.Sorted strLtB (sortIds ids) := by
  have hs : List.Sorted strLeB (sortIds ids) := List.sorted_insertionSort _ _
  exact hs.imp₂ (fun a b hle hne => strLtB_of_le_ne hle hne) (nodup_sortIds ids)

theorem lockLoop_error_notFound {s : St} {l : List String} {e : ApiErr}
    (h : lockLoop s l = .error e) : e = .notFound := by
  induction l with
  | nil => simp [lockLoop] at h
  | cons id rest ih =>
    unfold lockLoop at h
    cases hw : getWalletById s id with
    | none => rw [hw] at h; cases h; rfl
    | some w =>
      rw [hw] at h
      cases hr : lockLoop s rest with
      | error e' => rw [hr] at h; cases h; exact ih hr
      | ok ws => rw [hr] at h; cases h

theorem lockLoop_ok_found {s : St} {l : List String} {ws : List Wallet}
    (h : lockLoop s l = .ok ws) : ∀ id ∈ l, (getWalletById s id).isSome := by
  induction l generalizing ws with
  | nil => intro id hid; cases hid
  | cons x rest ih =>
    intro id hid
    unfold lockLoop at h
    cases hw : getWalletById s x with
    | none => rw [hw] at h; cases h
    | some w =>
      rw [hw] at h
      cases hr : lockLoop s rest with
      | error e => rw [hr] at h; cases h
      | ok ws' =>
        rcases List.mem_cons.mp hid with rfl | hm
        · simp [hw]
        · exact ih hr id hm

theorem lockLoop_ok_of_found {s : St} {l : List String}
    (h : ∀ id ∈ l, (getWalletById s id).isSome) :
    ∃ ws, lockLoop s l = .ok ws := by
  induction l with
  | nil => exact ⟨[], rfl⟩
  | cons x rest ih =>
    obtain ⟨w, hw⟩ := Option.isSome_iff_exists.mp (h x (List.mem_cons_self x rest))
    obtain ⟨ws, hws⟩ := ih (fun id hid => h id (List.mem_cons_of_mem _ hid))
    exact ⟨w :: ws, by simp [lockLoop, hw, hws]⟩

theorem lockLoop_error_of_missing {s : St} {l : List String}
    (h : ∃ id ∈ l, getWalletById s id = none) :
    lockLoop s l = .error .notFound := by
  cases hl : lockLoop s l with
  | error e => rw [lockLoop_error_notFound hl]
  | ok ws =>
    obtain ⟨id, hid, hnone⟩ := h
    have := lockLoop_ok_found hl id hid
    rw [hnone] at this
    cases this

theorem lockWallets_error_iff (s : St) (ids : List String) :
    lockWallets s ids = .error .notFound ↔
      ∃ id ∈ ids, getWalletById s id = none := by
  constructor
  · intro h
    unfold lockWallets at h
    cases hl : lockLoop s (sortIds ids) with
    | error e =>
      by_contra hno
      push_neg at hno
      have hall : ∀ id ∈ sortIds ids, (getWalletById s id).isSome := by
        intro id hid
        have := hno id ((mem_sortIds ids id).mp hid)
        cases hw : getWalletById s id with
        | none => exact absurd hw this
        | some w => simp
      obtain ⟨ws, hws⟩ := lockLoop_ok_of_found hall
      rw [hws] at hl; cases hl
    | ok ws => rw [hl] at h; cases h
  · intro h
    unfold lockWallets
    obtain ⟨id, hid, hnone⟩ := h
    exact lockLoop_error_of_missing ⟨id, (mem_sortIds ids id).mpr hid, hnone⟩

theorem lockWallets_ok_of_found {s : St} {ids : List String}
    (h : ∀ id ∈ ids, (getWalletById s id).isSome) :
    ∃ ws, lockWallets s ids = .ok ws := by
  unfold lockWallets
  exact lockLoop_ok_of_found (fun id hid => h id ((mem_sortIds ids id).mp hid))

/-! ## Characterisation of the transactional scope and of
`_executeTransfer` -/

theorem transferScope_ok {s : St} {a : TransferArgs} {n : JSNum}
    {asset : AssetType} {h : String} {res : TransferResult} {s' : St}
    (hok : transferScope s a n asset h = .ok (res, s')) :
    ∃ q, n.toRat? = some q ∧
      (∃ w ∈ s.wallets, w.id = a.fromWalletId) ∧
      (∃ w ∈ s.wallets, w.id = a.toWalletId) ∧
      res = mkResult s a asset.symbol ∧
      s' = commitState s a q asset.symbol h := by
  unfold transferScope at hok
  split at hok
  · cases hok
  · split at hok
    · split at hok
      · cases hok
      · split at hok
        · cases hok
        · split at hok
          · cases hok
          · split at hok
            · cases hok
            · rename_i x1 ws hlock x2 x3 wFrom wTo hw1 hw2 hact1 hact2 hspend x4 q hq
              simp only [Except.ok.injEq, Prod.mk.injEq] at hok
              obtain ⟨h1, h2⟩ := hok
              obtain ⟨hm1, hid1⟩ := getWalletById_some hw1
              obtain ⟨hm2, hid2⟩ := getWalletById_some hw2
              exact ⟨q, hq, ⟨wFrom, hm1, hid1⟩, ⟨wTo, hm2, hid2⟩, h1.symm, h2.symm⟩
    · cases hok

theorem JSNum.toRat?_some {n : JSNum} {q : ℚ} (h : n.toRat? = some q) :
    n = .finite q := by
  cases n <;> simp [JSNum.toRat?] at h
  rw [h]

theorem pos_of_guard_false {q : ℚ} (h : amountGuardFails (.finite q) = false) :
    0 < q := by
  simp [amountGuardFails, JSNum.isNaN, JSNum.leZero] at h
  exact h

theorem executeTransfer_spec (s : St) (a : TransferArgs) :
    ((executeTransfer s a).2 = s ∧
      ∀ r s', executeTransfer s a ≠ (.ok (r, false), s')) ∨
    (∃ q sym h res, a.amount = JSNum.finite q ∧ 0 < q ∧
      (∃ w ∈ s.wallets, w.id = a.fromWalletId) ∧
      (∃ w ∈ s.wallets, w.id = a.toWalletId) ∧
      res = mkResult s a sym ∧
      executeTransfer s a = (.ok (res, false), commitState s a q sym h)) := by
  by_cases hg : amountGuardFails a.amount = true
  · left; constructor <;> simp [executeTransfer, hg]
  · have hg' : amountGuardFails a.amount = false := by simpa using hg
    cases hidem : idemGet s a.idemKey with
    | some ex =>
      left
      by_cases hh :
          (ex.requestHash != hashRequest a.assetTypeId a.amount a.reference) = true
      · constructor <;> simp [executeTransfer, hg', hidem, hh]
      · have hh' :
            (ex.requestHash != hashRequest a.assetTypeId a.amount a.reference)
              = false := by simpa using hh
        constructor <;> simp [executeTransfer, hg', hidem, hh']
    | none =>
      cases hasset : getAssetById s a.assetTypeId with
      | none => left; constructor <;> simp [executeTransfer, hg', hidem, hasset]
      | some asset =>
        by_cases hact : (!asset.isActive) = true
        · left; constructor <;> simp [executeTransfer, hg', hidem, hasset, hact]
        · have hact' : (!asset.isActive) = false := by simpa using hact
          cases hscope : transferScope s a a.amount asset
              (hashRequest a.assetTypeId a.amount a.reference) with
          | error e =>
            left; constructor <;>
              simp [executeTransfer, hg', hidem, hasset, hact', hscope]
          | ok p =>
            obtain ⟨res, s'⟩ := p
            obtain ⟨q, hq, hfrom, hto, hres, hs'⟩ := transferScope_ok hscope
            right
            have ham : a.amount = .finite q := JSNum.toRat?_some hq
            refine ⟨q, asset.symbol,
              hashRequest a.assetTypeId a.amount a.reference, res, ham,
              pos_of_guard_false (ham ▸ hg'), hfrom, hto, hres, ?_⟩
            rw [← hs']
            simp [executeTransfer, hg', hidem, hasset, hact', hscope]

theorem executeTransfer_ok_fresh {s : St} {a : TransferArgs}
    {res : TransferResult} {s' : St}
    (hok : executeTransfer s a = (.ok (res, false), s')) :
    ∃ q sym h, a.amount = JSNum.finite q ∧ 0 < q ∧
      (∃ w ∈ s.wallets, w.id = a.fromWalletId) ∧
      (∃ w ∈ s.wallets, w.id = a.toWalletId) ∧
      res = mkResult s a sym ∧ s' = commitState s a q sym h := by
  rcases executeTransfer_spec s a with ⟨_, hne⟩ |
    ⟨q, sym, h, res', ham, hpos, hfrom, hto, hres, heq⟩
  · exact absurd hok (hne res s')
  · rw [hok] at heq
    simp only [Prod.mk.injEq, Except.ok.injEq, and_true] at heq
    obtain ⟨h1, h2⟩ := heq
    exact ⟨q, sym, h, ham, hpos, hfrom, hto, h1 ▸ hres, h2⟩

theorem step_cases {s s' : St} (hs : Step s s') :
    s' = s ∨ ∃ a q sym h, 0 < q ∧
      (∃ w ∈ s.wallets, w.id = a.fromWalletId) ∧
      (∃ w ∈ s.wallets, w.id = a.toWalletId) ∧
      s' = commitState s a q sym h := by
  cases hs with
  | topup wId b k ep =>
    cases htw : getSystemWalletByRef s "system:treasury" with
    | none => left; simp [topUp, htw]
    | some tw =>
      rcases executeTransfer_spec s (mkTopupArgs tw.id wId b k ep) with
        ⟨h2, _⟩ | ⟨q, sym, hh, res, _, hpos, hfrom, hto, _, heq⟩
      · left; simp [topUp, htw, h2]
      · right
        exact ⟨mkTopupArgs tw.id wId b k ep, q, sym, hh, hpos, hfrom, hto,
          by simp [topUp, htw, heq]⟩
  | bonus wId b k ep =>
    cases hbp : getSystemWalletByRef s "system:bonus_pool" with
    | none => left; simp [bonus, hbp]
    | some bp =>
      rcases executeTransfer_spec s (mkBonusArgs bp.id wId b k ep) with
        ⟨h2, _⟩ | ⟨q, sym, hh, res, _, hpos, hfrom, hto, _, heq⟩
      · left; simp [bonus, hbp, h2]
      · right
        exact ⟨mkBonusArgs bp.id wId b k ep, q, sym, hh, hpos, hfrom, hto,
          by simp [bonus, hbp, heq]⟩
  | spend wId b k ep =>
    cases hrw : getSystemWalletByRef s "system:revenue" with
    | none => left; simp [spend, hrw]
    | some rw =>
      rcases executeTransfer_spec s (mkSpendArgs wId rw.id b k ep) with
        ⟨h2, _⟩ | ⟨q, sym, hh, res, _, hpos, hfrom, hto, _, heq⟩
      · left; simp [spend, hrw, h2]
      · right
        exact ⟨mkSpendArgs wId rw.id b k ep, q, sym, hh, hpos, hfrom, hto,
          by simp [spend, hrw, heq]⟩

/-! ## Balance summation lemmas -/

theorem balEntries_nil (wId aId : String) : balEntries [] wId aId = 0 := rfl

theorem balEntries_append (es fs : List LedgerEntry) (wId aId : String) :
    balEntries (es ++ fs) wId aId = balEntries es wId aId + balEntries fs wId aId := by
  simp [balEntries, List.filter_append]

theorem balEntries_singleton (e : LedgerEntry) (wId aId : String) :
    balEntries [e] wId aId =
      if e.walletId = wId ∧ e.assetTypeId = aId then signedAmount e else 0 := by
  unfold balEntries
  by_cases h1 : e.walletId = wId
  · by_cases h2 : e.assetTypeId = aId
    · have hb : (e.walletId == wId && e.assetTypeId == aId) = true := by
        simp [h1, h2]
      simp [List.filter, hb, h1, h2]
    · have hb : (e.walletId == wId && e.assetTypeId == aId) = false := by
        simp [h2]
      simp [List.filter, hb, h2]
  · have hb : (e.walletId == wId && e.assetTypeId == aId) = false := by
      simp [h1]
    simp [List.filter, hb, h1]

theorem sumBal_nil_entries (ws : List Wallet) (aId : String) :
    sumBal ws [] aId = 0 := by
  induction ws with
  | nil => rfl
  | cons w rest ih => simp [sumBal, balEntries_nil] at ih ⊢

theorem sumBal_append (ws : List Wallet) (es fs : List LedgerEntry) (aId : String) :
    sumBal ws (es ++ fs) aId = sumBal ws es aId + sumBal ws fs aId := by
  induction ws with
  | nil => simp [sumBal]
  | cons w rest ih =>
    simp only [sumBal, List.map_cons, List.sum_cons, balEntries_append] at ih ⊢
    rw [ih]; ring

theorem sum_ite_id_zero (ws : List Wallet) (wId : String) (v : ℚ)
    (h : ∀ w ∈ ws, w.id ≠ wId) :
    (ws.map (fun w => if w.id = wId then v else 0)).sum = 0 := by
  induction ws with
  | nil => rfl
  | cons w rest ih =>
    simp only [List.map_cons, List.sum_cons]
    rw [if_neg (h w (List.mem_cons_self w rest)),
      ih (fun w' hw' => h w' (List.mem_cons_of_mem _ hw'))]
    ring

theorem sum_ite_id (ws : List Wallet) (wId : String) (v : ℚ)
    (hnd : (ws.map (fun w => w.id)).Nodup) (hmem : ∃ w ∈ ws, w.id = wId) :
    (ws.map (fun w => if w.id = wId then v else 0)).sum = v := by
  induction ws with
  | nil => obtain ⟨w, hw, _⟩ := hmem; cases hw
  | cons w rest ih =>
    simp only [List.map_cons, List.nodup_cons] at hnd
    obtain ⟨hni, hndr⟩ := hnd
    simp only [List.map_cons, List.sum_cons]
    by_cases h : w.id = wId
    · rw [if_pos h, sum_ite_id_zero rest wId v ?_]
      · ring
      · intro w' hw' heq
        exact hni (h ▸ heq ▸ List.mem_map_of_mem (fun w => w.id) hw')
    · rw [if_neg h]
      obtain ⟨w', hw', hid'⟩ := hmem
      rcases List.mem_cons.mp hw' with rfl | hw''
      · exact absurd hid' h
      · rw [ih hndr ⟨w', hw'', hid'⟩]; ring

theorem sumBal_single (ws : List Wallet) (e : LedgerEntry) (aId : String)
    (hnd : (ws.map (fun w => w.id)).Nodup)
    (hmem : ∃ w ∈ ws, w.id = e.walletId) :
    sumBal ws [e] aId = if e.assetTypeId = aId then signedAmount e else 0 := by
  unfold sumBal
  by_cases ha : e.assetTypeId = aId
  · rw [if_pos ha]
    have : ∀ w ∈ ws,
        balEntries [e] w.id aId = if w.id = e.walletId then signedAmount e else 0 := by
      intro w _
      rw [balEntries_singleton]
      by_cases hw : e.walletId = w.id
      · simp [hw, ha]
      · rw [if_neg (fun hc => hw hc.1), if_neg (fun hc => hw hc.symm)]
    rw [List.map_congr_left this]
    exact sum_ite_id ws e.walletId (signedAmount e) hnd hmem
  · rw [if_neg ha]
    have : ∀ w ∈ ws, balEntries [e] w.id aId = 0 := by
      intro w _
      rw [balEntries_singleton, if_neg]
      rintro ⟨_, h2⟩; exact ha h2
    rw [List.map_congr_left this]
    simp

/-! ## Conservation (invariant machinery for C1) -/

theorem schemaWf_commit {s : St} (a : TransferArgs) (q : ℚ) (sym h : String)
    (hwf : SchemaWf s)
    (hfrom : ∃ w ∈ s.wallets, w.id = a.fromWalletId)
    (hto : ∃ w ∈ s.wallets, w.id = a.toWalletId) :
    SchemaWf (commitState s a q sym h) := by
  obtain ⟨hnd, hfk, htx, hetx⟩ := hwf
  refine ⟨?_, ?_, ?_, ?_⟩
  · rw [commitState_wallets]; exact hnd
  · rw [commitState_entries, commitState_wallets]
    intro e he
    rcases List.mem_append.mp he with he' | he'
    · exact hfk e he'
    · rcases List.mem_cons.mp he' with rfl | he''
      · exact hfrom
      · rcases List.mem_cons.mp he'' with rfl | h3
        · exact hto
        · cases h3
  · rw [commitState_txns, commitState_nextId]
    intro t ht
    rcases List.mem_cons.mp ht with rfl | ht'
    · exact Nat.lt_succ_self _
    · exact Nat.lt_succ_of_lt (htx t ht')
  · rw [commitState_entries, commitState_nextId]
    intro e he
    rcases List.mem_append.mp he with he' | he'
    · exact Nat.lt_succ_of_lt (hetx e he')
    · rcases List.mem_cons.mp he' with rfl | he''
      · exact Nat.lt_succ_self _
      · rcases List.mem_cons.mp he'' with rfl | h3
        · exact Nat.lt_succ_self _
        · cases h3

theorem conserved_commit {s : St} (a : TransferArgs) (q : ℚ) (sym h : String)
    (hnd : (s.wallets.map (fun w => w.id)).Nodup)
    (hfrom : ∃ w ∈ s.wallets, w.id = a.fromWalletId)
    (hto : ∃ w ∈ s.wallets, w.id = a.toWalletId)
    (hc : Conserved s) :
    Conserved (commitState s a q sym h) := by
  intro aId
  have hw := commitState_wallets s a q sym h
  have he := commitState_entries s a q sym h
  unfold Conserved at hc
  calc sumBal (commitState s a q sym h).wallets (commitState s a q sym h).entries aId
      = sumBal s.wallets (s.entries ++ [debitEntry s a q, creditEntry s a q]) aId := by
        rw [hw, he]
    _ = sumBal s.wallets s.entries aId +
          (sumBal s.wallets [debitEntry s a q] aId +
            sumBal s.wallets [creditEntry s a q] aId) := by
        rw [show [debitEntry s a q, creditEntry s a q] =
          [debitEntry s a q] ++ [creditEntry s a q] from rfl,
          sumBal_append, sumBal_append]
    _ = 0 := by
        rw [hc aId,
          sumBal_single s.wallets (debitEntry s a q) aId hnd hfrom,
          sumBal_single s.wallets (creditEntry s a q) aId hnd hto]
        simp only [debitEntry, creditEntry, signedAmount]
        split_ifs <;> ring

theorem step_preserves_inv {s s' : St} (hwf : SchemaWf s) (hc : Conserved s)
    (hs : Step s s') : SchemaWf s' ∧ Conserved s' := by
  rcases step_cases hs with rfl | ⟨a, q, sym, h, _, hfrom, hto, rfl⟩
  · exact ⟨hwf, hc⟩
  · exact ⟨schemaWf_commit a q sym h hwf hfrom hto,
      conserved_commit a q sym h hwf.1 hfrom hto hc⟩

theorem reach_preserves_inv {s₀ s : St} (hwf : SchemaWf s₀) (hc : Conserved s₀)
    (hr : Reach s₀ s) : SchemaWf s ∧ Conserved s := by
  induction hr with
  | refl => exact ⟨hwf, hc⟩
  | tail _ hstep ih => exact step_preserves_inv ih.1 ih.2 hstep

/-! ## Pairing (invariant machinery for C2) -/

theorem txEntries_commit_old {s : St} (a : TransferArgs) (q : ℚ) (sym h : String)
    {tId : Nat} (hlt : tId < s.nextId) :
    txEntries (commitState s a q sym h) tId = txEntries s tId := by
  unfold txEntries
  rw [commitState_entries, List.filter_append]
  have hnil : List.filter (fun e => e.transactionId == tId)
      [debitEntry s a q, creditEntry s a q] = [] := by
    simp [debitEntry, creditEntry, ne_of_gt hlt]
  rw [hnil, List.append_nil]

theorem txEntries_commit_new {s : St} (a : TransferArgs) (q : ℚ) (sym h : String)
    (hids : ∀ e ∈ s.entries, e.transactionId < s.nextId) :
    txEntries (commitState s a q sym h) s.nextId =
      [debitEntry s a q, creditEntry s a q] := by
  unfold txEntries
  rw [commitState_entries, List.filter_append]
  have h1 : List.filter (fun e => e.transactionId == s.nextId) s.entries = [] := by
    rw [List.filter_eq_nil_iff]
    intro e he
    simp [ne_of_lt (hids e he)]
  have h2 : List.filter (fun e => e.transactionId == s.nextId)
      [debitEntry s a q, creditEntry s a q] =
      [debitEntry s a q, creditEntry s a q] := by
    simp [debitEntry, creditEntry]
  rw [h1, h2, List.nil_append]

/-- Every transaction not present in the initial state has the pairing
shape. -/
def NewTxnsPaired (s₀ s : St) : Prop :=
  ∀ t ∈ s.txns, t ∈ s₀.txns ∨ PairedTx s t.id

theorem step_preserves_schemaWf {s s' : St} (hwf : SchemaWf s) (hs : Step s s') :
    SchemaWf s' := by
  rcases step_cases hs with rfl | ⟨a, q, sym, h, _, hfrom, hto, rfl⟩
  · exact hwf
  · exact schemaWf_commit a q sym h hwf hfrom hto

theorem step_preserves_paired {s₀ s s' : St} (hwf : SchemaWf s)
    (hp : NewTxnsPaired s₀ s) (hs : Step s s') : NewTxnsPaired s₀ s' := by
  rcases step_cases hs with rfl | ⟨a, q, sym, h, _, _, _, rfl⟩
  · exact hp
  · intro t ht
    rw [commitState_txns] at ht
    rcases List.mem_cons.mp ht with rfl | ht'
    · right
      exact ⟨debitEntry s a q, creditEntry s a q,
        txEntries_commit_new a q sym h hwf.2.2.2, rfl, rfl, rfl, rfl⟩
    · rcases hp t ht' with h0 | hpaired
      · left; exact h0
      · right
        obtain ⟨e1, e2, hte, hd1, hd2, ham, has⟩ := hpaired
        exact ⟨e1, e2,
          by rw [txEntries_commit_old a q sym h (hwf.2.2.1 t ht')]; exact hte,
          hd1, hd2, ham, has⟩

theorem reach_preserves_paired {s₀ s : St} (hwf : SchemaWf s₀)
    (hr : Reach s₀ s) : SchemaWf s ∧ NewTxnsPaired s₀ s := by
  induction hr with
  | refl => exact ⟨hwf, fun t ht => Or.inl ht⟩
  | tail _ hstep ih =>
    exact ⟨step_preserves_schemaWf ih.1 hstep,
      step_preserves_paired ih.1 ih.2 hstep⟩

theorem executeTransfer_fresh_entries {s : St} {a : TransferArgs}
    {res : TransferResult} {s' : St}
    (hids : ∀ e ∈ s.entries, e.transactionId < s.nextId)
    (hok : executeTransfer s a = (.ok (res, false), s')) :
    (s'.entries.filter (fun e => e.transactionId == res.transaction_id)).map
        (fun e => e.walletId) = [a.fromWalletId, a.toWalletId] := by
  obtain ⟨q, sym, h, _, _, _, _, hres, hs'⟩ := executeTransfer_ok_fresh hok
  subst hs'
  have hid : res.transaction_id = s.nextId := by rw [hres]; rfl
  rw [hid]
  have hnew := txEntries_commit_new a q sym h hids
  unfold txEntries at hnew
  rw [hnew]
  simp [debitEntry, creditEntry]

/-! ## Evaluation of the transfer on fully-resolved inputs -/

theorem wallets_found_pair {s : St} {a : TransferArgs} {wF wT : Wallet}
    (hwF : getWalletById s a.fromWalletId = some wF)
    (hwT : getWalletById s a.toWalletId = some wT) :
    ∀ id ∈ [a.fromWalletId, a.toWalletId], (getWalletById s id).isSome := by
  intro id hid
  rcases List.mem_cons.mp hid with rfl | hid'
  · simp [hwF]
  · rcases List.mem_cons.mp hid' with rfl | h3
    · simp [hwT]
    · cases h3

theorem transferScope_eval {s : St} {a : TransferArgs} {q : ℚ}
    {wF wT : Wallet} {c : AssetType} {h : String}
    (ham : a.amount = JSNum.finite q)
    (hwF : getWalletById s a.fromWalletId = some wF) (hFact : wF.isActive = true)
    (hwT : getWalletById s a.toWalletId = some wT) (hTact : wT.isActive = true)
    (hcheck : (a.txType == "spend" &&
      JSNum.finLt (getBalanceForAsset s a.fromWalletId a.assetTypeId)
        a.amount) = false) :
    transferScope s a a.amount c h =
      .ok (mkResult s a c.symbol, commitState s a q c.symbol h) := by
  obtain ⟨ws, hlock⟩ := lockWallets_ok_of_found (wallets_found_pair hwF hwT)
  have hck : a.txType = "spend" →
      JSNum.finLt (getBalanceForAsset s a.fromWalletId a.assetTypeId)
        (JSNum.finite q) = false := by
    intro hsp
    rw [← ham]
    cases hb : JSNum.finLt (getBalanceForAsset s a.fromWalletId a.assetTypeId)
        a.amount
    · rfl
    · rw [hsp] at hcheck; simp [hb] at hcheck
  unfold transferScope
  rw [hlock, hwF, hwT]
  simp [hFact, hTact, hcheck, ham, JSNum.toRat?]
  exact hck

theorem transferScope_insufficient {s : St} {a : TransferArgs}
    {wF wT : Wallet} {c : AssetType} {h : String} {n : JSNum}
    (hwF : getWalletById s a.fromWalletId = some wF) (hFact : wF.isActive = true)
    (hwT : getWalletById s a.toWalletId = some wT) (hTact : wT.isActive = true)
    (hcheck : (a.txType == "spend" &&
      JSNum.finLt (getBalanceForAsset s a.fromWalletId a.assetTypeId) n) = true) :
    transferScope s a n c h = .error .unprocessable := by
  obtain ⟨ws, hlock⟩ := lockWallets_ok_of_found (wallets_found_pair hwF hwT)
  unfold transferScope
  rw [hlock, hwF, hwT]
  simp [hFact, hTact, hcheck]

theorem executeTransfer_success {s : St} {a : TransferArgs} {q : ℚ}
    {wF wT : Wallet} {c : AssetType}
    (ham : a.amount = JSNum.finite q) (hpos : 0 < q)
    (hidem : idemGet s a.idemKey = none)
    (hasset : getAssetById s a.assetTypeId = some c)
    (hact : c.isActive = true)
    (hwF : getWalletById s a.fromWalletId = some wF) (hFact : wF.isActive = true)
    (hwT : getWalletById s a.toWalletId = some wT) (hTact : wT.isActive = true)
    (hfunds : a.txType = "spend" →
      ¬ getBalanceForAsset s a.fromWalletId a.assetTypeId < q) :
    executeTransfer s a =
      (.ok (mkResult s a c.symbol, false),
        commitState s a q c.symbol
          (hashRequest a.assetTypeId a.amount a.reference)) := by
  have hg : amountGuardFails a.amount = false := by
    rw [ham]; exact amountGuardFails_finite_pos hpos
  have hcheck : (a.txType == "spend" &&
      JSNum.finLt (getBalanceForAsset s a.fromWalletId a.assetTypeId)
        a.amount) = false := by
    by_cases hsp : a.txType = "spend"
    · have hnb := hfunds hsp
      simp [hsp, ham, JSNum.finLt, hnb]
    · simp [hsp]
  have hscope := transferScope_eval (c := c)
    (h := hashRequest a.assetTypeId a.amount a.reference)
    ham hwF hFact hwT hTact hcheck
  simp [executeTransfer, hg, hidem, hasset, hact, hscope]

theorem executeTransfer_insufficient {s : St} {a : TransferArgs} {q : ℚ}
    {wF wT : Wallet} {c : AssetType}
    (ham : a.amount = JSNum.finite q) (hpos : 0 < q)
    (hidem : idemGet s a.idemKey = none)
    (hasset : getAssetById s a.assetTypeId = some c)
    (hact : c.isActive = true)
    (hwF : getWalletById s a.fromWalletId = some wF) (hFact : wF.isActive = true)
    (hwT : getWalletById s a.toWalletId = some wT) (hTact : wT.isActive = true)
    (hsp : a.txType = "spend")
    (hlow : getBalanceForAsset s a.fromWalletId a.assetTypeId < q) :
    executeTransfer s a = (.error .unprocessable, s) := by
  have hg : amountGuardFails a.amount = false := by
    rw [ham]; exact amountGuardFails_finite_pos hpos
  have hcheck : (a.txType == "spend" &&
      JSNum.finLt (getBalanceForAsset s a.fromWalletId a.assetTypeId)
        a.amount) = true := by
    simp [hsp, ham, JSNum.finLt, hlow]
  have hscope := transferScope_insufficient (c := c)
    (h := hashRequest a.assetTypeId a.amount a.reference)
    hwF hFact hwT hTact hcheck
  simp [executeTransfer, hg, hidem, hasset, hact, hscope]

/-- Post-commit balance of one wallet in the transferred asset's terms. -/
theorem getBalanceForAsset_commit (s : St) (a : TransferArgs) (q : ℚ)
    (sym h : String) (wId aId : String) :
    getBalanceForAsset (commitState s a q sym h) wId aId =
      getBalanceForAsset s wId aId
        + (if a.fromWalletId = wId ∧ a.assetTypeId = aId then -q else 0)
        + (if a.toWalletId = wId ∧ a.assetTypeId = aId then q else 0) := by
  unfold getBalanceForAsset
  rw [commitState_entries,
    show [debitEntry s a q, creditEntry s a q] =
      [debitEntry s a q] ++ [creditEntry s a q] from rfl,
    ← List.append_assoc, balEntries_append, balEntries_append,
    balEntries_singleton, balEntries_singleton]
  simp [debitEntry, creditEntry, signedAmount]

/-! ## Further concrete fixtures -/

/-- A cached transfer response. -/
def exIdemResp : TransferResult :=
  ⟨0, "topup", "PAY-1", "a1", "GLD", .finite 5, "t1", "u1"⟩

/-- An unexpired idempotency record whose hash matches no canonical
request encoding. -/
def exRecOther : IdemRecord := ⟨"k1", "ep", "OTHERHASH", 201, exIdemResp, 0, 999999⟩

/-- A state carrying an unexpired idempotency record under key `k1`. -/
def exStRec : St := ⟨[exTreasury, exAlice], [exGold], [], [], [exRecOther], 10, 1⟩

/-- A seed transaction header. -/
def exSeedTxn : Txn := ⟨0, "topup", "SEED", "system"⟩

/-- A state in which the revenue wallet itself holds 5 GLD. -/
def exRevSt : St :=
  ⟨[exRevenue, exAlice], [exGold], [exSeedTxn],
    [⟨0, "r1", "a1", .credit, 5⟩], [], 10, 1⟩

/-- A state in which the user wallet holds 5 GLD, with the revenue wallet
present. -/
def exUserSt : St :=
  ⟨[exRevenue, exAlice], [exGold], [exSeedTxn],
    [⟨0, "u1", "a1", .credit, 5⟩], [], 10, 1⟩

/-- An inactive treasury wallet. -/
def exInactiveTreasury : Wallet :=
  ⟨"t1", "system:treasury", "system", "Treasury", false⟩

/-- An unexpired idempotency record whose hash matches `exBody`. -/
def exMatchRec : IdemRecord :=
  ⟨"k1", "ep", hashRequest "a1" (.finite 5) "PAY-1", 201, exIdemResp, 0, 999999⟩

/-- A state whose treasury is inactive (and whose other system wallets
are absent), carrying a matching cached record for key `k1`. -/
def exStC10 : St := ⟨[exInactiveTreasury], [exGold], [], [], [exMatchRec], 10, 1⟩

/-! ## Claims -/

/-- C6: Canonical lock acquisition: for every call of `lockWallets` with
any multiset of wallet ids, locks are acquired on the distinct ids in
ascending lexicographic order of id (never a lower id after a higher one
within the call), duplicates are coalesced, and the call fails `NotFound`
iff some requested id does not exist.  The acquisition sequence of the
`for` loop is `sortIds ids`. -/
theorem c6_canonical_lock_order (s : St) (ids : List String) :
    List.Sorted strLtB (sortIds ids) ∧
    (∀ x, x ∈ sortIds ids ↔ x ∈ ids) ∧
    (lockWallets s ids = .error .notFound ↔
      ∃ id ∈ ids, getWalletById s id = none) ∧
    (∀ e, lockWallets s ids = .error e → e = .notFound) :=
  ⟨sorted_sortIds ids, mem_sortIds ids,
    lockWallets_error_iff s ids,
    fun _ h => lockLoop_error_notFound h⟩

/-- Witness for C6 at a concrete call: ids `["u1", "t1", "u1"]` are
locked as `["t1", "u1"]`, in strictly ascending order. -/
theorem c6_canonical_lock_order_witness :
    List.Sorted strLtB (sortIds ["u1", "t1", "u1"]) :=
  (c6_canonical_lock_order exSt ["u1", "t1", "u1"]).1

/-- C10 (implicit): each flow resolves its well-known system wallet
before the optimistic idempotency read, so a request whose idempotency
key has a matching unexpired cached record still fails `NotFound` (and
does not return the cached response) whenever the flow's system wallet is
missing or inactive (`getSystemWalletByRef` filters on
`owner_type = 'system' AND is_active = TRUE`). -/
theorem c10_system_wallet_before_cache (s : St) (wId : String)
    (b : TransferBody) (k ep : String) (r : IdemRecord)
    (_hr : idemGet s k = some r)
    (_hmatch : r.requestHash = hashRequest b.assetTypeId b.amount b.reference) :
    (getSystemWalletByRef s "system:treasury" = none →
      topUp s wId b k ep = (.error .notFound, s)) ∧
    (getSystemWalletByRef s "system:bonus_pool" = none →
      bonus s wId b k ep = (.error .notFound, s)) ∧
    (getSystemWalletByRef s "system:revenue" = none →
      spend s wId b k ep = (.error .notFound, s)) := by
  refine ⟨fun hnone => ?_, fun hnone => ?_, fun hnone => ?_⟩
  · simp [topUp, hnone]
  · simp [bonus, hnone]
  · simp [spend, hnone]

/-- Witness for C10: with an inactive treasury and a matching unexpired
cached record under the request's key, all three flows return `NotFound`
and leave the state unchanged. -/
theorem c10_system_wallet_before_cache_witness :
    topUp exStC10 "u1" exBody "k1" "ep" = (.error .notFound, exStC10) ∧
    bonus exStC10 "u1" exBody "k1" "ep" = (.error .notFound, exStC10) ∧
    spend exStC10 "u1" exBody "k1" "ep" = (.error .notFound, exStC10) := by
  have h := c10_system_wallet_before_cache exStC10 "u1" exBody "k1" "ep"
    exMatchRec (by decide) (by decide)
  exact ⟨h.1 (by decide), h.2.1 (by decide), h.2.2 (by decide)⟩

/-- C7 counterexample: the amount guard `isNaN(x) || x <= 0` does not
reject `Infinity`; a top-up with amount `Infinity` passes validation,
proceeds to the transfer, and dies inside the transactional scope at the
storage layer (`internal`), not with `BadRequest`.  The claim's "not
finite is rejected with BadRequest" is therefore false. -/
theorem c7_amount_validation_counterexample :
    amountGuardFails JSNum.inf = false ∧
    topUp exSt "u1" ⟨"a1", JSNum.inf, "PAY-1", "system"⟩ "k1" "ep" =
      (.error .internal, exSt) := by
  exact ⟨rfl, by decide⟩

/-- C7 (amended): an amount that is zero, negative, or `NaN` is rejected
with `BadRequest` before any storage mutation (the state is returned
unchanged), and every positive finite amount passes the guard — but so
does `Infinity`: the guard does not require finiteness. -/
theorem c7_amount_validation_amended :
    (∀ (s : St) (a : TransferArgs), amountGuardFails a.amount = true →
      executeTransfer s a = (.error .badRequest, s)) ∧
    (∀ q : ℚ, 0 < q → amountGuardFails (JSNum.finite q) = false) ∧
    (∀ q : ℚ, q ≤ 0 → amountGuardFails (JSNum.finite q) = true) ∧
    amountGuardFails JSNum.nan = true ∧
    amountGuardFails JSNum.inf = false := by
  refine ⟨fun s a h => by simp [executeTransfer, h], ?_, ?_, rfl, rfl⟩
  · exact fun q hq => amountGuardFails_finite_pos hq
  · intro q hq
    simp [amountGuardFails, JSNum.isNaN, JSNum.leZero, hq]

/-- Witness for C7 (amended): a zero amount is rejected with
`BadRequest`, the state unchanged. -/
theorem c7_amount_validation_witness :
    executeTransfer exSt
        (mkTopupArgs "t1" "u1" ⟨"a1", JSNum.finite 0, "PAY-1", "system"⟩ "k1" "ep") =
      (.error .badRequest, exSt) :=
  c7_amount_validation_amended.1 exSt
    (mkTopupArgs "t1" "u1" ⟨"a1", JSNum.finite 0, "PAY-1", "system"⟩ "k1" "ep")
    (by decide)

/-- C8 counterexample: a non-numeric `limit` or `offset` string parses to
`NaN`, which `Math.min`/`Math.max` propagate — the effective values are
`NaN` (`none`), not integers clamped to `[1,100]` and `≥ 0`. -/
theorem c8_pagination_counterexample :
    effLimit (some "abc") = none ∧ effOffset (some "abc") = none := by
  exact ⟨rfl, rfl⟩

/-- C8 (amended): when the query string parses to an integer, the
effective limit is clamped to `[1,100]` (default 20 when missing or
empty) and the effective offset to `≥ 0` (default 0); a non-numeric
non-empty string yields `NaN` instead. -/
theorem c8_pagination_amended :
    (∀ (str : String) (n : Int), jsParseInt str = some n →
      effLimit (some str) = some (max 1 (min 100 n)) ∧
      1 ≤ max 1 (min 100 n) ∧ max 1 (min 100 n) ≤ 100) ∧
    (∀ (str : String) (n : Int), jsParseInt str = some n →
      effOffset (some str) = some (max 0 n) ∧ 0 ≤ max 0 n) ∧
    effLimit none = some 20 ∧ effOffset none = some 0 ∧
    effLimit (some "") = some 20 ∧ effOffset (some "") = some 0 ∧
    (∀ str : String, str ≠ "" → jsParseInt str = none →
      effLimit (some str) = none ∧ effOffset (some str) = none) := by
  refine ⟨?_, ?_, rfl, rfl, rfl, rfl, ?_⟩
  · intro str n h
    have hne : str ≠ "" := by
      rintro rfl; rw [show jsParseInt "" = none from rfl] at h; cases h
    have hb : (str == "") = false := by simp [hne]
    refine ⟨?_, le_max_left 1 _, ?_⟩
    · simp [effLimit, jsOrDefault, hb, h, jsMin, jsMax]
    · rcases max_choice 1 (min 100 n) with hm | hm <;> rw [hm]
      · norm_num
      · exact min_le_left 100 n
  · intro str n h
    have hne : str ≠ "" := by
      rintro rfl; rw [show jsParseInt "" = none from rfl] at h; cases h
    have hb : (str == "") = false := by simp [hne]
    exact ⟨by simp [effOffset, jsOrDefault, hb, h, jsMax], le_max_left 0 _⟩
  · intro str hne h
    have hb : (str == "") = false := by simp [hne]
    exact ⟨by simp [effLimit, jsOrDefault, hb, h, jsMin, jsMax],
      by simp [effOffset, jsOrDefault, hb, h, jsMax]⟩

/-- Witness for C8 (amended): `limit=500` is clamped to 100. -/
theorem c8_pagination_witness :
    effLimit (some "500") = some (max 1 (min 100 500)) ∧
    1 ≤ max 1 (min 100 (500 : Int)) ∧ max 1 (min 100 (500 : Int)) ≤ 100 :=
  c8_pagination_amended.1 "500" 500 (by decide)

/-- C9 counterexample: `listAll` orders by `owner_type DESC`, and
`'user' > 'system'` lexicographically, so user wallets come first — the
claim's "system wallets before user wallets" is false. -/
theorem c9_list_order_counterexample :
    (listAll exSt).map (fun w => w.ownerType) = ["user", "system"] := by
  decide

instance : IsTotal Wallet listAllLE where
  total w1 w2 := by
    unfold listAllLE walletLeB
    simp only [Bool.or_eq_true, Bool.and_eq_true, beq_iff_eq]
    by_cases h1 : strLt w2.ownerType w1.ownerType = true
    · exact Or.inl (Or.inl h1)
    · by_cases h2 : strLt w1.ownerType w2.ownerType = true
      · exact Or.inr (Or.inl h2)
      · have heq : w1.ownerType = w2.ownerType :=
          strEq_of_not_lt (Bool.not_eq_true _ ▸ h2) (Bool.not_eq_true _ ▸ h1)
        rcases strLe_total w1.label w2.label with hl | hl
        · exact Or.inl (Or.inr ⟨heq.symm, hl⟩)
        · exact Or.inr (Or.inr ⟨heq, hl⟩)

instance : IsTrans Wallet listAllLE where
  trans a b c hab hbc := by
    unfold listAllLE walletLeB at hab hbc ⊢
    simp only [Bool.or_eq_true, Bool.and_eq_true, beq_iff_eq] at hab hbc ⊢
    rcases hab with h1 | ⟨e1, l1⟩ <;> rcases hbc with h2 | ⟨e2, l2⟩
    · exact Or.inl (strLt_trans h2 h1)
    · exact Or.inl (by rw [e2]; exact h1)
    · exact Or.inl (by rw [← e1]; exact h2)
    · exact Or.inr ⟨e2.trans e1, strLe_trans l1 l2⟩

/-- C9 (amended): `listAll` returns a permutation of all wallets ordered
by `ownerType` descending — user wallets before system wallets — and by
`label` ascending within equal `ownerType`. -/
theorem c9_list_order_amended (s : St) :
    List.Perm (listAll s) s.wallets ∧ List.Sorted listAllLE (listAll s) :=
  ⟨List.perm_insertionSort _ _, List.sorted_insertionSort _ _⟩

/-- Witness for C9 (amended) at a concrete state. -/
theorem c9_list_order_witness : List.Perm (listAll exSt) exSt.wallets :=
  (c9_list_order_amended exSt).1

/-- C1: Conservation: from any schema-well-formed state satisfying
conservation, every state reachable by the public write operations
(`topup`, `bonus`, `spend`) satisfies conservation: for every asset `A`,
the sum of `balance(W, A)` over all wallets `W` equals 0, because every
committed transfer appends exactly one debit and one credit entry of the
same amount and same asset atomically. -/
theorem c1_conservation_reachable (s₀ s : St) (hwf : SchemaWf s₀)
    (hc : Conserved s₀) (hr : Reach s₀ s) : Conserved s :=
  (reach_preserves_inv hwf hc hr).2

theorem exSt_schemaWf : SchemaWf exSt := by
  unfold SchemaWf; decide

theorem exSt_conserved : Conserved exSt := by
  intro aId
  simp [sumBal, balEntries, exSt, exTreasury, exAlice]

/-- Witness for C1: the state after one top-up of 5 GLD from the empty
seed state still conserves every asset. -/
theorem c1_conservation_witness :
    Conserved ((topUp exSt "u1" exBody "k1" "ep").2) :=
  c1_conservation_reachable exSt ((topUp exSt "u1" exBody "k1" "ep").2)
    exSt_schemaWf exSt_conserved
    (Relation.ReflTransGen.single (Step.topup exSt "u1" exBody "k1" "ep"))

/-- C2 counterexample: a top-up whose caller-supplied walletId equals the
treasury's own id commits a transaction whose two ledger entries carry
the *same* `walletId` — the claim's "distinct walletIds — including when
the caller-supplied walletId equals the flow's system wallet id" is
false. -/
theorem c2_pairing_counterexample :
    (topUp exSt "t1" exBody "k1" "ep").1 =
      .ok (mkResult exSt (mkTopupArgs "t1" "t1" exBody "k1" "ep") "GLD", false) ∧
    ((topUp exSt "t1" exBody "k1" "ep").2.entries.map
      (fun e => e.transactionId)) = [0, 0] ∧
    ((topUp exSt "t1" exBody "k1" "ep").2.entries.map
      (fun e => e.walletId)) = ["t1", "t1"] := by
  refine ⟨by decide, by decide, by decide⟩

/-- C2 (amended): every transaction committed by the three flows from a
schema-well-formed state has exactly two ledger entries — a debit then a
credit — with equal `assetTypeId` and equal `amount`; the debit is on the
flow's source wallet and the credit on its destination, so the
`walletId`s are distinct exactly when the two resolved wallets differ
(when the caller-supplied walletId equals the flow's system wallet id,
both entries carry that same walletId). -/
theorem c2_pairing_amended :
    (∀ s₀ s, SchemaWf s₀ → Reach s₀ s →
      ∀ t ∈ s.txns, t ∈ s₀.txns ∨ PairedTx s t.id) ∧
    (∀ (s : St) (a : TransferArgs) (res : TransferResult) (s' : St),
      (∀ e ∈ s.entries, e.transactionId < s.nextId) →
      executeTransfer s a = (.ok (res, false), s') →
      (s'.entries.filter (fun e => e.transactionId == res.transaction_id)).map
        (fun e => e.walletId) = [a.fromWalletId, a.toWalletId]) := by
  constructor
  · intro s₀ s hwf hr
    exact (reach_preserves_paired hwf hr).2
  · intro s a res s' hids hok
    exact executeTransfer_fresh_entries hids hok

/-- Witness for C2 (amended): the transaction committed by one top-up of
5 GLD has the pairing shape. -/
theorem c2_pairing_witness :
    PairedTx ((topUp exSt "u1" exBody "k1" "ep").2) 0 :=
  Or.resolve_left
    (c2_pairing_amended.1 exSt ((topUp exSt "u1" exBody "k1" "ep").2)
      exSt_schemaWf
      (Relation.ReflTransGen.single (Step.topup exSt "u1" exBody "k1" "ep"))
      ⟨0, "topup", "PAY-1", "system"⟩ (by decide))
    (by decide)

theorem commitState_idems_of_key_exists {s : St} (a : TransferArgs) (q : ℚ)
    (sym h : String) (hkey : ∃ r ∈ s.idems, r.idemKey = a.idemKey) :
    (commitState s a q sym h).idems = s.idems := by
  unfold commitState
  rw [idemStore_of_key_exists (by exact hkey)]

/-- C3 counterexample: with an unexpired record for the key (different
request hash) already present when the transactional scope runs — the
race's interleaving — the scope does not roll back and raises no
Conflict: the `ON CONFLICT (idem_key) DO NOTHING` insert is silently
dropped, the scope commits its own two ledger entries, and the
pre-existing record survives unchanged. -/
theorem c3_idem_race_counterexample :
    idemGet exStRec "k1" = some exRecOther ∧
    exRecOther.requestHash ≠ hashRequest "a1" (JSNum.finite 5) "PAY-1" ∧
    transferScope exStRec (mkTopupArgs "t1" "u1" exBody "k1" "ep")
        (JSNum.finite 5) exGold (hashRequest "a1" (JSNum.finite 5) "PAY-1") =
      .ok (mkResult exStRec (mkTopupArgs "t1" "u1" exBody "k1" "ep") "GLD",
        commitState exStRec (mkTopupArgs "t1" "u1" exBody "k1" "ep") 5 "GLD"
          (hashRequest "a1" (JSNum.finite 5) "PAY-1")) ∧
    (commitState exStRec (mkTopupArgs "t1" "u1" exBody "k1" "ep") 5 "GLD"
        (hashRequest "a1" (JSNum.finite 5) "PAY-1")).idems = exStRec.idems ∧
    (commitState exStRec (mkTopupArgs "t1" "u1" exBody "k1" "ep") 5 "GLD"
        (hashRequest "a1" (JSNum.finite 5) "PAY-1")).entries.length =
      exStRec.entries.length + 2 := by
  refine ⟨by decide, by decide, by decide, by decide, by decide⟩

/-- C3 (amended): if a record for the same idempotency key already exists
when the transactional scope reaches the idempotency insert, the insert
is silently dropped (the existing record wins, whatever its hash), and
the scope still commits its own transaction header and paired ledger
entries — it is not rolled back and no Conflict is raised. -/
theorem c3_idem_race_amended (s : St) (a : TransferArgs) (n : JSNum)
    (asset : AssetType) (h : String) (res : TransferResult) (s' : St)
    (hkey : ∃ r ∈ s.idems, r.idemKey = a.idemKey)
    (hok : transferScope s a n asset h = .ok (res, s')) :
    s'.idems = s.idems ∧
    ∃ q, s'.entries = s.entries ++ [debitEntry s a q, creditEntry s a q] ∧
      s'.txns = ⟨s.nextId, a.txType, a.reference, a.initiatedBy⟩ :: s.txns ∧
      res = mkResult s a asset.symbol := by
  obtain ⟨q, _, _, _, hres, hs'⟩ := transferScope_ok hok
  subst hs'
  exact ⟨commitState_idems_of_key_exists a q asset.symbol h hkey,
    q, commitState_entries s a q asset.symbol h,
    commitState_txns s a q asset.symbol h, hres⟩

/-- Witness for C3 (amended) at the concrete race state. -/
theorem c3_idem_race_witness :
    (commitState exStRec (mkTopupArgs "t1" "u1" exBody "k1" "ep") 5 "GLD"
        (hashRequest "a1" (JSNum.finite 5) "PAY-1")).idems = exStRec.idems :=
  (c3_idem_race_amended exStRec (mkTopupArgs "t1" "u1" exBody "k1" "ep")
    (JSNum.finite 5) exGold (hashRequest "a1" (JSNum.finite 5) "PAY-1")
    (mkResult exStRec (mkTopupArgs "t1" "u1" exBody "k1" "ep") "GLD")
    (commitState exStRec (mkTopupArgs "t1" "u1" exBody "k1" "ep") 5 "GLD"
      (hashRequest "a1" (JSNum.finite 5) "PAY-1"))
    (by decide) (by decide)).1

/-- C4 counterexample: a request whose idempotency key has an unexpired
record with a *different* stored hash, but whose amount is invalid
(zero), fails `BadRequest` — not `Conflict` — because the amount guard
runs before the optimistic idempotency read. -/
theorem c4_optimistic_read_counterexample :
    idemGet exStRec "k1" = some exRecOther ∧
    exRecOther.requestHash ≠ hashRequest "a1" (JSNum.finite 0) "PAY-1" ∧
    executeTransfer exStRec
        (mkTopupArgs "t1" "u1" ⟨"a1", JSNum.finite 0, "PAY-1", "system"⟩ "k1" "ep") =
      (.error .badRequest, exStRec) := by
  refine ⟨by decide, by decide, by decide⟩

/-- C4 (amended): for every write request *with a valid amount* whose
idempotency key has an unexpired stored record: a stored hash different
from the hash of the incoming `{assetTypeId, amount, reference}` fails
`Conflict`; an equal hash returns the stored `responseBody` with
`fromCache = true`; in both cases the state is returned unchanged — no
new transaction, no ledger entries, no idempotency row. -/
theorem c4_optimistic_read_amended (s : St) (a : TransferArgs)
    (ex : IdemRecord)
    (hguard : amountGuardFails a.amount = false)
    (hex : idemGet s a.idemKey = some ex) :
    (ex.requestHash ≠ hashRequest a.assetTypeId a.amount a.reference →
      executeTransfer s a = (.error .conflict, s)) ∧
    (ex.requestHash = hashRequest a.assetTypeId a.amount a.reference →
      executeTransfer s a = (.ok (ex.responseBody, true), s)) := by
  constructor
  · intro hne
    have hb : (ex.requestHash !=
        hashRequest a.assetTypeId a.amount a.reference) = true := by
      simpa [bne_iff_ne] using hne
    simp [executeTransfer, hguard, hex, hb]
  · intro heq
    have hb : (ex.requestHash !=
        hashRequest a.assetTypeId a.amount a.reference) = false := by
      simp [heq]
    simp [executeTransfer, hguard, hex, hb]

/-- Witness for C4 (amended): the concrete mismatching replay fails
`Conflict` with the state unchanged. -/
theorem c4_optimistic_read_witness :
    executeTransfer exStRec (mkTopupArgs "t1" "u1" exBody "k1" "ep") =
      (.error .conflict, exStRec) :=
  (c4_optimistic_read_amended exStRec (mkTopupArgs "t1" "u1" exBody "k1" "ep")
    exRecOther (by decide) (by decide)).1 (by decide)

/-- C5 counterexample: a spend whose source *is* the revenue wallet
(caller-supplied walletId = revenue id) of exactly the available balance
succeeds but leaves the balance at 5, not 0: the debit and the credit
land on the same wallet.  The claim's parenthetical "spending exactly the
available balance yields balance 0" is false in this degenerate case. -/
theorem c5_funds_check_counterexample :
    getBalanceForAsset exRevSt "r1" "a1" = 5 ∧
    (spend exRevSt "r1" exBody "k5" "ep").1 =
      .ok (mkResult exRevSt (mkSpendArgs "r1" "r1" exBody "k5" "ep") "GLD", false) ∧
    getBalanceForAsset (spend exRevSt "r1" exBody "k5" "ep").2 "r1" "a1" = 5 ∧
    getBalanceForAsset (spend exRevSt "r1" exBody "k5" "ep").2 "r1" "a1" ≠ 0 := by
  have hbal : getBalanceForAsset exRevSt "r1" "a1" = 5 := by
    simp [getBalanceForAsset, balEntries, exRevSt, signedAmount]
  have hsys : getSystemWalletByRef exRevSt "system:revenue" = some exRevenue := by
    decide
  have hsucc := executeTransfer_success (s := exRevSt)
    (a := mkSpendArgs "r1" "r1" exBody "k5" "ep")
    (q := 5)
    rfl (by norm_num) (by decide)
    (show getAssetById exRevSt "a1" = some exGold by decide) (by decide)
    (show getWalletById exRevSt "r1" = some exRevenue by decide) (by decide)
    (show getWalletById exRevSt "r1" = some exRevenue by decide) (by decide)
    (fun _ => by
      show ¬ getBalanceForAsset exRevSt "r1" "a1" < 5
      rw [hbal]; exact lt_irrefl 5)
  have hrun : spend exRevSt "r1" exBody "k5" "ep" =
      (.ok (mkResult exRevSt (mkSpendArgs "r1" "r1" exBody "k5" "ep") "GLD", false),
        commitState exRevSt (mkSpendArgs "r1" "r1" exBody "k5" "ep") 5 "GLD"
          (hashRequest "a1" (JSNum.finite 5) "PAY-1")) := by
    rw [show spend exRevSt "r1" exBody "k5" "ep" =
        executeTransfer exRevSt (mkSpendArgs "r1" "r1" exBody "k5" "ep") from
      by simp [spend, hsys, exRevenue]]
    exact hsucc
  have hafter : getBalanceForAsset (spend exRevSt "r1" exBody "k5" "ep").2
      "r1" "a1" = 5 := by
    rw [hrun]
    show getBalanceForAsset
      (commitState exRevSt (mkSpendArgs "r1" "r1" exBody "k5" "ep") 5 "GLD"
        (hashRequest "a1" (JSNum.finite 5) "PAY-1")) "r1" "a1" = 5
    rw [getBalanceForAsset_commit]
    rw [show (mkSpendArgs "r1" "r1" exBody "k5" "ep").assetTypeId = "a1" from rfl,
      show (mkSpendArgs "r1" "r1" exBody "k5" "ep").fromWalletId = "r1" from rfl,
      show (mkSpendArgs "r1" "r1" exBody "k5" "ep").toWalletId = "r1" from rfl,
      hbal, if_pos ⟨rfl, rfl⟩, if_pos ⟨rfl, rfl⟩]
    ring
  refine ⟨hbal, by rw [hrun], hafter, by rw [hafter]; norm_num⟩

/-- C5 (amended): for every spend with resolved, active, locked wallets
and a valid amount: if the source's derived balance in the chosen asset
is strictly below the amount, the operation fails `Unprocessable` and the
state is returned unchanged (no ledger entries, no transaction header, no
idempotency row); if the balance is at least the amount, the spend
commits, and spending exactly the available balance yields balance 0
*provided the source wallet differs from the revenue wallet*.  Top-up and
bonus perform no funds check: they commit regardless of the system source
wallet's balance, which decreases by the amount (and may go negative). -/
theorem c5_funds_check_amended :
    (∀ (s : St) (wId : String) (b : TransferBody) (k ep : String)
        (rw uw : Wallet) (q : ℚ) (asset : AssetType),
      getSystemWalletByRef s "system:revenue" = some rw →
      b.amount = JSNum.finite q → 0 < q →
      idemGet s k = none →
      getAssetById s b.assetTypeId = some asset → asset.isActive = true →
      getWalletById s wId = some uw → uw.isActive = true →
      getWalletById s rw.id = some rw → rw.isActive = true →
      ((getBalanceForAsset s wId b.assetTypeId < q →
          spend s wId b k ep = (.error .unprocessable, s)) ∧
        (q ≤ getBalanceForAsset s wId b.assetTypeId →
          spend s wId b k ep =
            (.ok (mkResult s (mkSpendArgs wId rw.id b k ep) asset.symbol, false),
              commitState s (mkSpendArgs wId rw.id b k ep) q asset.symbol
                (hashRequest b.assetTypeId b.amount b.reference))) ∧
        (getBalanceForAsset s wId b.assetTypeId = q → wId ≠ rw.id →
          getBalanceForAsset (spend s wId b k ep).2 wId b.assetTypeId = 0))) ∧
    (∀ (s : St) (wId : String) (b : TransferBody) (k ep : String)
        (tw uw : Wallet) (q : ℚ) (asset : AssetType),
      getSystemWalletByRef s "system:treasury" = some tw →
      b.amount = JSNum.finite q → 0 < q →
      idemGet s k = none →
      getAssetById s b.assetTypeId = some asset → asset.isActive = true →
      getWalletById s wId = some uw → uw.isActive = true →
      getWalletById s tw.id = some tw → tw.isActive = true →
      (topUp s wId b k ep =
          (.ok (mkResult s (mkTopupArgs tw.id wId b k ep) asset.symbol, false),
            commitState s (mkTopupArgs tw.id wId b k ep) q asset.symbol
              (hashRequest b.assetTypeId b.amount b.reference)) ∧
        (wId ≠ tw.id →
          getBalanceForAsset (topUp s wId b k ep).2 tw.id b.assetTypeId =
            getBalanceForAsset s tw.id b.assetTypeId - q))) ∧
    (∀ (s : St) (wId : String) (b : TransferBody) (k ep : String)
        (bp uw : Wallet) (q : ℚ) (asset : AssetType),
      getSystemWalletByRef s "system:bonus_pool" = some bp →
      b.amount = JSNum.finite q → 0 < q →
      idemGet s k = none →
      getAssetById s b.assetTypeId = some asset → asset.isActive = true →
      getWalletById s wId = some uw → uw.isActive = true →
      getWalletById s bp.id = some bp → bp.isActive = true →
      (bonus s wId b k ep =
          (.ok (mkResult s (mkBonusArgs bp.id wId b k ep) asset.symbol, false),
            commitState s (mkBonusArgs bp.id wId b k ep) q asset.symbol
              (hashRequest b.assetTypeId b.amount b.reference)) ∧
        (wId ≠ bp.id →
          getBalanceForAsset (bonus s wId b k ep).2 bp.id b.assetTypeId =
            getBalanceForAsset s bp.id b.assetTypeId - q))) := by
  refine ⟨?_, ?_, ?_⟩
  · intro s wId b k ep rw uw q asset hrw hbq hpos hidem hasset hact huw huact
      hrww hrwact
    have hrun : spend s wId b k ep =
        executeTransfer s (mkSpendArgs wId rw.id b k ep) := by
      simp [spend, hrw]
    refine ⟨?_, ?_, ?_⟩
    · intro hlow
      rw [hrun]
      exact executeTransfer_insufficient hbq hpos hidem hasset hact huw huact
        hrww hrwact rfl hlow
    · intro hge
      rw [hrun]
      exact executeTransfer_success hbq hpos hidem hasset hact huw huact
        hrww hrwact (fun _ => not_lt.mpr hge)
    · intro hbal hne
      have hsucc := executeTransfer_success (a := mkSpendArgs wId rw.id b k ep)
        hbq hpos hidem hasset hact huw huact hrww hrwact
        (fun _ => not_lt.mpr (le_of_eq hbal.symm))
      rw [hrun, hsucc]
      show getBalanceForAsset
        (commitState s (mkSpendArgs wId rw.id b k ep) q asset.symbol
          (hashRequest b.assetTypeId b.amount b.reference)) wId b.assetTypeId = 0
      rw [getBalanceForAsset_commit]
      rw [show (mkSpendArgs wId rw.id b k ep).assetTypeId = b.assetTypeId from rfl,
        show (mkSpendArgs wId rw.id b k ep).fromWalletId = wId from rfl,
        show (mkSpendArgs wId rw.id b k ep).toWalletId = rw.id from rfl,
        hbal, if_pos ⟨rfl, rfl⟩, if_neg (fun hc => hne hc.1.symm)]
      ring
  · intro s wId b k ep tw uw q asset htw hbq hpos hidem hasset hact huw huact
      htww htwact
    have hrun : topUp s wId b k ep =
        executeTransfer s (mkTopupArgs tw.id wId b k ep) := by
      simp [topUp, htw]
    have hsucc := executeTransfer_success (a := mkTopupArgs tw.id wId b k ep)
      hbq hpos hidem hasset hact htww htwact huw huact
      (fun hsp => by simp [mkTopupArgs] at hsp)
    refine ⟨by rw [hrun]; exact hsucc, ?_⟩
    intro hne
    rw [hrun, hsucc]
    show getBalanceForAsset
      (commitState s (mkTopupArgs tw.id wId b k ep) q asset.symbol
        (hashRequest b.assetTypeId b.amount b.reference)) tw.id b.assetTypeId =
      getBalanceForAsset s tw.id b.assetTypeId - q
    rw [getBalanceForAsset_commit]
    rw [show (mkTopupArgs tw.id wId b k ep).assetTypeId = b.assetTypeId from rfl,
      show (mkTopupArgs tw.id wId b k ep).fromWalletId = tw.id from rfl,
      show (mkTopupArgs tw.id wId b k ep).toWalletId = wId from rfl,
      if_pos ⟨rfl, rfl⟩, if_neg (fun hc => hne hc.1)]
    ring
  · intro s wId b k ep bp uw q asset hbp hbq hpos hidem hasset hact huw huact
      hbpw hbpact
    have hrun : bonus s wId b k ep =
        executeTransfer s (mkBonusArgs bp.id wId b k ep) := by
      simp [bonus, hbp]
    have hsucc := executeTransfer_success (a := mkBonusArgs bp.id wId b k ep)
      hbq hpos hidem hasset hact hbpw hbpact huw huact
      (fun hsp => by simp [mkBonusArgs] at hsp)
    refine ⟨by rw [hrun]; exact hsucc, ?_⟩
    intro hne
    rw [hrun, hsucc]
    show getBalanceForAsset
      (commitState s (mkBonusArgs bp.id wId b k ep) q asset.symbol
        (hashRequest b.assetTypeId b.amount b.reference)) bp.id b.assetTypeId =
      getBalanceForAsset s bp.id b.assetTypeId - q
    rw [getBalanceForAsset_commit]
    rw [show (mkBonusArgs bp.id wId b k ep).assetTypeId = b.assetTypeId from rfl,
      show (mkBonusArgs bp.id wId b k ep).fromWalletId = bp.id from rfl,
      show (mkBonusArgs bp.id wId b k ep).toWalletId = wId from rfl,
      if_pos ⟨rfl, rfl⟩, if_neg (fun hc => hne hc.1)]
    ring

/-- Witness for C5 (amended): a user spending exactly the available 5 GLD
ends with balance 0. -/
theorem c5_funds_check_witness :
    getBalanceForAsset (spend exUserSt "u1" exBody "k5" "ep").2 "u1" "a1" = 0 :=
  (c5_funds_check_amended.1 exUserSt "u1" exBody "k5" "ep" exRevenue exAlice
    5 exGold (by decide) rfl (by norm_num) (by decide) (by decide) (by decide)
    (by decide) (by decide) (by decide) (by decide)).2.2
    (by simp [getBalanceForAsset, balEntries, exUserSt, exBody, signedAmount])
    (by decide)

end DinoWallet
